import Mathlib

/-!
Verification development for the bpaf token pool and combinator core.

The Rust sources embedded here are `src/args.rs` (the token pool `State`, its
construction/tokenization and the primitive consumers) and `src/structs.rs`
(the combinators `ParseOrElse`, `ParseOptional`/`ParseMany`/`parse_option`,
`ParseFallback`, `ParseFallbackWith` and `ParseAnywhere`).  Modules of the
crate that are referenced but whose sources are not available
(`arg.rs`/`split_os_argument`, `error.rs`, `info.rs`'s `Error`, `item.rs`,
`params.rs`'s `NamedArg`, the pool fields `head`/`conflicts` maintained by the
pool version `structs.rs` builds against) are modelled from the specification
and marked as such in their doc comments.

Machine strings (`OsString`) are modelled as `String`; `usize` as `Nat`.
The `autocomplete` cargo feature is taken as disabled, so all
`#[cfg(feature = "autocomplete")]` code is omitted.
-/

set_option autoImplicit false

namespace Bpaf

/-- Per-token consumption status, from `args.rs` (`enum ItemState`). -/
inductive ItemState where
  | Unparsed : ItemState
  | Conflict (other : Nat) : ItemState
  | Parsed : ItemState
  deriving DecidableEq, Repr

/-- `ItemState::parsed` from `args.rs`. -/
def ItemState.parsed : ItemState → Bool
  | ItemState.Unparsed => false
  | ItemState.Conflict _ => false
  | ItemState.Parsed => true

/-- `ItemState::present` from `args.rs`. -/
def ItemState.present : ItemState → Bool
  | ItemState.Unparsed => true
  | ItemState.Conflict _ => true
  | ItemState.Parsed => false

/-- The four token variants produced by tokenization (`enum Arg` of the
missing `arg.rs`; the constructors and their payloads are forced by every use
in `args.rs`: `Short(char, bool, OsString)`, `Long(String, bool, OsString)`,
`Word(OsString)`, `PosWord(OsString)`). -/
inductive Arg where
  | Short (c : Char) (attached : Bool) (os : String) : Arg
  | Long (name : String) (attached : Bool) (os : String) : Arg
  | Word (os : String) : Arg
  | PosWord (os : String) : Arg
  deriving DecidableEq, Repr

/-- `ArgType` of the missing `arg.rs`, as used by `State::construct`. -/
inductive ArgType where
  | Short : ArgType
  | Long : ArgType
  deriving DecidableEq, Repr

/-- An expected item recorded in a `Missing` error (`item.rs` is not under
src/; the constructors and fields are modelled from their uses in
`args.rs::take_positional_word` and in `structs.rs::meta_items` /
`classify_anywhere`). -/
inductive Item where
  | Flag (name : String) (shorts : List Char) (help : Option String)
      (env : Option String) : Item
  | Positional (metavar : String) (strict : Bool) (help : Option String)
      (anywhere : Bool) : Item
  | MultiArg (name : String) (shorts : List Char) (help : Option String)
      (fields : List (String × Option String)) : Item
  deriving DecidableEq, Repr

namespace error

/-- Construction/primitive error payloads (`error.rs` is not under src/;
variants are modelled from their uses: `Message::Ambiguity(items.len(), short)`
in `State::construct` and `Message::NoArgument(key_ix)` in `State::take_arg`). -/
inductive Message where
  | Ambiguity (pos : Nat) (text : String) : Message
  | NoArgument (pos : Nat) : Message
  deriving DecidableEq, Repr

/-- One missing expected item, with its position and scope
(modelled from the spec: "Missing(list of (expected-item, position, scope))"
and the literal construction in `take_positional_word`). -/
structure MissingItem where
  item : Item
  position : Nat
  scope : Nat × Nat
  deriving DecidableEq, Repr

/-- The error type returned by the pool primitives (`crate::error::Error`,
not under src/; variants modelled from their uses in `args.rs`). -/
inductive Error where
  | Missing (items : List MissingItem) : Error
  | Message (m : Message) : Error
  deriving DecidableEq, Repr

end error

/-- `enum ParseFailure` from `lib.rs`: terminate and print to stdout/stderr. -/
inductive ParseFailure where
  | Stdout (s : String) : ParseFailure
  | Stderr (s : String) : ParseFailure
  deriving DecidableEq, Repr

/-- `DecorPlace` from the missing `meta.rs`, as used in `structs.rs`. -/
inductive DecorPlace where
  | Header : DecorPlace
  | Suffix : DecorPlace
  deriving DecidableEq, Repr

/-- Structural description of what a parser accepts (`meta.rs` is not under
src/; the constructors are forced by the patterns matched in
`structs.rs::meta_items` and `classify_anywhere`). -/
inductive Meta where
  | And (xs : List Meta) : Meta
  | Or (xs : List Meta) : Meta
  | Item (i : Item) : Meta
  | Optional (m : Meta) : Meta
  | Required (m : Meta) : Meta
  | Many (m : Meta) : Meta
  | Anywhere (m : Meta) : Meta
  | Decorated (m : Meta) (s : String) (p : DecorPlace) : Meta
  | Skip : Meta
  | HideUsage (m : Meta) : Meta

/-- `Conflict` from the pool version `structs.rs` builds against (not under
src/): which meta won and which lost at a given position (modelled from the
spec's "map from pool-position to recorded conflict (winner meta vs loser
meta)" and the uses in `remember_winner`/`remember_conflict`). -/
inductive Conflict where
  | Solo (m : Meta) : Conflict
  | Conflicts (winner loser : Meta) : Conflict

/-- `Conflict::winner()` as used by `remember_conflict`. -/
def Conflict.winner : Conflict → Meta
  | Conflict.Solo m => m
  | Conflict.Conflicts w _ => w

/-- `usize::MAX` as used for the `head` sentinel (64-bit platform). -/
def usizeMax : Nat := 2 ^ 64 - 1

namespace info

/-- The error type threaded through the combinators (`crate::info::Error`, not
under src/; variants are forced by the patterns matched in `structs.rs`:
`Message(String, bool)` with the recoverability flag, `Missing(Vec<Item>)`,
`ParseFailure(ParseFailure)`). -/
inductive Error where
  | Message (text : String) (recoverable : Bool) : Error
  | Missing (items : List Item) : Error
  | ParseFailure (f : ParseFailure) : Error
  deriving DecidableEq, Repr

/-- Modelled from the spec: "If both failed, the two failures are combined
into one (e.g. `expected A or expected B`)" and "`or_else` combines two
Missing failures into one aggregate Missing listing both expected items";
help/version terminations propagate to the top.  The implementation lives in
the missing `info.rs`. -/
def Error.combine_with : Error → Error → Error
  | Error.Missing a, Error.Missing b => Error.Missing (a ++ b)
  | Error.ParseFailure f, _ => Error.ParseFailure f
  | _, Error.ParseFailure f => Error.ParseFailure f
  | Error.Message t r, _ => Error.Message t r
  | Error.Missing _, Error.Message t r => Error.Message t r

end info

/-- The token pool, `struct State` of `args.rs`.  The fields `items`,
`item_state`, `remaining`, `current`, `path` and `scope` are from the source;
`head` and `conflicts` belong to the pool version `structs.rs` builds against
(not under src/) and are modelled from the spec ("a branch's first-consumed
index" used by `or_else` resolution; "a map from pool-position to recorded
conflict").  A scope `(a, b)` stands for the Rust range `a..b`. -/
structure State where
  items : List Arg
  item_state : List ItemState
  remaining : Nat
  current : Option Nat
  path : List String
  scope : Nat × Nat
  head : Nat
  conflicts : List (Nat × Conflict)

namespace State

/-- `State::present`: whether the item at position `ix` was not yet parsed. -/
def present (s : State) (ix : Nat) : Option Bool :=
  (s.item_state.get? ix).map ItemState.present

/-- `State::depth`: the length of the path to the current command. -/
def depth (s : State) : Nat := s.path.length

/-- The sequence produced by `State::items_iter` (`ArgsIter`): the present
items inside the scope, left to right, with their indices. -/
def itemsIterList (s : State) : List (Nat × Arg) :=
  (List.range' s.scope.1 (s.scope.2 - s.scope.1)).filterMap (fun ix =>
    match s.item_state.get? ix, s.items.get? ix with
    | some st, some a => if st.present then some (ix, a) else none
    | _, _ => none)

/-- `State::remove`: if `index` is in scope and present, mark it parsed,
decrement `remaining` and set the cursor. -/
def remove (s : State) (index : Nat) : State :=
  if s.scope.1 ≤ index ∧ index < s.scope.2 ∧
      ((s.item_state.get? index).map ItemState.present).getD false then
    { s with current := some index,
             remaining := s.remaining - 1,
             item_state := s.item_state.set index ItemState.Parsed }
  else s

/-- The loop of `State::pick_winner`, with the running index made explicit. -/
def pick_winner_aux : List (ItemState × ItemState) → Nat → Bool × Option Nat
  | [], _ => (true, none)
  | (me, other) :: rest, ix =>
    if me.parsed ≠ other.parsed then (me.parsed, some ix)
    else pick_winner_aux rest (ix + 1)

/-- `State::pick_winner`: find the first index where the two status lists
disagree on parsed-ness; the receiver wins when it parsed there. -/
def pick_winner (s other : State) : Bool × Option Nat :=
  pick_winner_aux (s.item_state.zip other.item_state) 0

/-- `State::is_empty`. -/
def is_empty (s : State) : Bool := s.remaining = 0

/-- `State::len`. -/
def len (s : State) : Nat := s.remaining

/-- `State::get`: the argument at `ix`, only if in scope and present. -/
def get (s : State) (ix : Nat) : Option Arg :=
  if s.scope.1 ≤ ix ∧ ix < s.scope.2 ∧
      ((s.item_state.get? ix).map ItemState.present).getD false then
    s.items.get? ix
  else none

/-- `State::set_scope`: replace the scope and recompute `remaining` by
scanning the statuses inside the new scope. -/
def set_scope (s : State) (scope : Nat × Nat) : State :=
  { s with scope := scope,
           remaining := ((s.item_state.drop scope.1).take (scope.2 - scope.1)).countP
             (fun st => st.present) }

/-- The sequence produced by `State::ranges` (`ArgRangesIter`): every
present index `cur ≤ scope.end`, paired with a clone of the pool scoped to
`cur..items.len()`.  The iterator stops at the first index beyond the end of
`item_state`. -/
def rangesList (s : State) : List (Nat × State) :=
  (List.range (min (s.scope.2 + 1) s.item_state.length)).filterMap (fun cur =>
    if ((s.item_state.get? cur).map ItemState.present).getD false then
      some (cur, s.set_scope (cur, s.items.length))
    else none)

end State

/-- A named flag/argument matcher (`NamedArg` of the missing `params.rs`).
Modelled from the spec: a matcher recognizes a flag token by short or long
name equality; `adjacent` only affects how the matcher recognizes an
`=`-attached value, which this model's tokenizer has already split off, so it
does not change name matching here. -/
structure NamedArg where
  short : List Char
  long : List String

/-- `NamedArg::matches_arg`, modelled from the spec (see `NamedArg`). -/
def NamedArg.matches_arg (named : NamedArg) (arg : Arg) (_adjacent : Bool) : Bool :=
  match arg with
  | Arg.Short c _ _ => named.short.contains c
  | Arg.Long n _ _ => named.long.contains n
  | Arg.Word _ => false
  | Arg.PosWord _ => false

namespace State

/-- `State::take_flag`: consume the first present in-scope token the matcher
recognizes; report whether one was found. -/
def take_flag (s : State) (named : NamedArg) : Bool × State :=
  match s.itemsIterList.find? (fun p => named.matches_arg p.2 false) with
  | some (ix, _) => (true, s.remove ix)
  | none => (false, s)

/-- `State::take_arg`: find a matching flag token; the next index must hold a
present in-scope `Word` or the call fails with `NoArgument`; on success both
tokens are removed and the value returned. -/
def take_arg (s : State) (named : NamedArg) (adjacent : Bool) :
    Except error.Error (Option String) × State :=
  match s.itemsIterList.find? (fun p => named.matches_arg p.2 adjacent) with
  | none => (Except.ok none, s)
  | some (key_ix, _) =>
    let val_ix := key_ix + 1
    match s.get val_ix with
    | some (Arg.Word w) =>
      let s1 := { s with current := some val_ix }
      let s2 := s1.remove key_ix
      let s3 := s2.remove val_ix
      (Except.ok (some w), s3)
    | _ => (Except.error (error.Error.Message (error.Message.NoArgument key_ix)), s)

/-- `State::take_positional_word`: take the first present token if it is a
word; fail with a structured `Missing` if it is a flag; `Ok None` when empty. -/
def take_positional_word (s : State) (metavar : String) :
    Except error.Error (Option (Bool × String)) × State :=
  match s.itemsIterList.head? with
  | some (ix, Arg.PosWord w) =>
    (Except.ok (some (true, w)), ({ s with current := some ix }).remove ix)
  | some (ix, Arg.Word w) =>
    (Except.ok (some (false, w)), ({ s with current := some ix }).remove ix)
  | some (position, _) =>
    (Except.error (error.Error.Missing
      [{ item := Item.Positional metavar false none false,
         position := position,
         scope := (position, position + 1) }]), s)
  | none => (Except.ok none, s)

/-- `State::take_cmd`: match the first present token against an exact literal
word. -/
def take_cmd (s : State) (word : String) : Bool × State :=
  match s.itemsIterList.head? with
  | some (ix, Arg.Word w) =>
    if w = word then (true, { s.remove ix with current := some ix })
    else (false, { s with current := none })
  | some _ => (false, { s with current := none })
  | none => (false, { s with current := none })

/-- `State::peek`. -/
def peek (s : State) : Option Arg := (s.itemsIterList.head?).map (fun p => p.2)

end State

/-- Split a raw chunk at the first `=`, used for `--name=value` / `-c=value`. -/
def splitEq : List Char → Option (List Char × List Char)
  | [] => none
  | c :: rest =>
    if c = '=' then some ([], rest)
    else match splitEq rest with
      | some (name, value) => some (c :: name, value)
      | none => none

/-- The body of `split_os_argument` (missing `arg.rs`), modelled from the
spec's token grammar: a flag body `name` or `name=value`; the value, which
may itself start with `-`, is already split into a `Word` and never
re-tokenized. -/
def splitNamed (ty : ArgType) (body : List Char) :
    Option (ArgType × String × Option Arg) :=
  match splitEq body with
  | some (name, value) =>
    if name.isEmpty then none
    else some (ty, String.mk name, some (Arg.Word (String.mk value)))
  | none => some (ty, String.mk body, none)

/-- `split_os_argument` of the missing `arg.rs`, modelled from the spec's
token grammar: `--` alone is the end-of-flags marker (classified by the
caller, so unsplit here), `--name` / `--name=value` are long forms,
`-body` / `-name=value` are short forms, anything else is unclassified. -/
def split_os_argument (os : String) : Option (ArgType × String × Option Arg) :=
  match os.data with
  | [] => none
  | d1 :: rest1 =>
    if d1 = '-' then
      match rest1 with
      | [] => none
      | d2 :: rest2 =>
        if d2 = '-' then
          match rest2 with
          | [] => none
          | _ :: _ => splitNamed ArgType.Long rest2
        else splitNamed ArgType.Short (d2 :: rest2)
    else none

/-- The classification loop of `State::construct` from `args.rs`: consume the
raw items in order, producing the token list, the position of the first `--`
marker, and an optional ambiguity error.  On an ambiguity the loop stops
(`break`) without classifying the remaining raw items. -/
def tokenize (short_flags short_args : List Char) :
    List String → List Arg → Bool → Option Nat →
    List Arg × Option Nat × Option error.Message
  | [], items, _, marker => (items, marker, none)
  | os :: rest, items, posOnly, marker =>
    if posOnly then
      tokenize short_flags short_args rest (items ++ [Arg.PosWord os]) true marker
    else
      match split_os_argument os with
      | some (ArgType.Short, short, none) =>
        (match short.data with
         | [] =>
           -- unreachable: `split_os_argument` only returns nonempty names
           tokenize short_flags short_args rest (items ++ [Arg.Word os]) false marker
         | [c] =>
           tokenize short_flags short_args rest
             (items ++ [Arg.Short c false os]) false marker
         | c0 :: c1 :: cs =>
           let can_be_flags := (c0 :: c1 :: cs).all (fun c => short_flags.contains c)
           let can_be_arg := short_args.contains c0
           match can_be_flags, can_be_arg with
           | true, true =>
             (items ++ [Arg.Word os], marker,
              some (error.Message.Ambiguity items.length short))
           | true, false =>
             -- the first token keeps the raw text, the rest get the empty one
             tokenize short_flags short_args rest
               (items ++ (Arg.Short c0 false os ::
                 (c1 :: cs).map (fun c => Arg.Short c false ""))) false marker
           | false, true =>
             tokenize short_flags short_args rest
               (items ++ [Arg.Short c0 true os, Arg.Word (String.mk (c1 :: cs))])
               false marker
           | false, false =>
             tokenize short_flags short_args rest (items ++ [Arg.Word os]) false marker)
      | some (ArgType.Short, short, some arg) =>
        (match short.data with
         | c :: _ =>
           tokenize short_flags short_args rest
             (items ++ [Arg.Short c true os, arg]) false marker
         | [] =>
           -- unreachable: `split_os_argument` only returns nonempty names
           tokenize short_flags short_args rest (items ++ [Arg.Word os]) false marker)
      | some (ArgType.Long, long, argOpt) =>
        tokenize short_flags short_args rest
          (items ++ Arg.Long long argOpt.isSome os :: argOpt.toList) false marker
      | none =>
        if os = "--" then
          tokenize short_flags short_args rest
            (items ++ [Arg.PosWord os]) true (some items.length)
        else
          tokenize short_flags short_args rest (items ++ [Arg.Word os]) false marker

/-- `State::construct` from `args.rs`: tokenize the raw input, then build the
pool; the `--` marker, when present, starts out parsed and is discounted from
`remaining`. -/
def State.construct (args : List String) (short_flags short_args : List Char) :
    State × Option error.Message :=
  let r := tokenize short_flags short_args args [] false none
  let items := r.1
  let marker := r.2.1
  let item_state0 := List.replicate items.length ItemState.Unparsed
  let p := match marker with
    | some ix => (item_state0.set ix ItemState.Parsed, items.length - 1)
    | none => (item_state0, items.length)
  ({ items := items,
     item_state := p.1,
     remaining := p.2,
     current := none,
     path := [],
     scope := (0, items.length),
     head := usizeMax,
     conflicts := [] }, r.2.2)

/-! ## The combinator layer, from `src/structs.rs`

A parser object is its `eval` state transformer together with its `meta`
(the `Parser` trait of `lib.rs`: `eval(&self, args) -> Result<T, Error>` plus
`meta(&self) -> Meta`).  Mutation of `args` is explicit state passing. -/

/-- A parser: the `Parser<T>` trait object of `lib.rs`, as a state
transformer over the pool plus its structural `meta`. -/
structure ParserFn (T : Type) where
  eval : State → Except info.Error T × State
  meta : Meta

/-- `BTreeMap::entry(k).or_insert(v)` on the conflict map: insert only when
the key is absent. -/
def entryOrInsert (m : List (Nat × Conflict)) (k : Nat) (v : Conflict) :
    List (Nat × Conflict) :=
  if m.any (fun p => p.1 = k) then m else m ++ [(k, v)]

/-- Lookup in the conflict map. -/
def conflictLookup (m : List (Nat × Conflict)) (k : Nat) : Option Conflict :=
  (m.find? (fun p => p.1 = k)).map (fun p => p.2)

/-- `remember_winner` from `structs.rs`. -/
def remember_winner (args : State) (meta : Meta) : State :=
  { args with conflicts := entryOrInsert args.conflicts args.head (Conflict.Solo meta) }

/-- `remember_conflict` from `structs.rs`. -/
def remember_conflict (args : State) (winner : Meta) (failed : State) (loser : Meta) :
    State :=
  let conflicts1 := entryOrInsert args.conflicts args.head (Conflict.Solo winner)
  let winnerMeta :=
    ((conflictLookup conflicts1 args.head).getD (Conflict.Solo winner)).winner
  let loserMeta :=
    ((conflictLookup failed.conflicts failed.head).map Conflict.winner).getD loser
  { args with conflicts :=
      entryOrInsert conflicts1 failed.head (Conflict.Conflicts winnerMeta loserMeta) }

/-- `this_or_that_picks_first` from `structs.rs`: decide which branch of
`or_else` wins, given each branch's failure (if any) and final pool.  Returns
the decision (`Ok true` for the first branch) or the combined error, together
with the pool that was swapped into the live position. -/
def this_or_that_picks_first (err_a err_b : Option info.Error)
    (args args_a args_b : State) : Except info.Error Bool × State :=
  if args_a.depth < args_b.depth then
    (match err_b with
     | some err => Except.error err
     | none => Except.ok false, args_b)
  else if args_b.depth < args_a.depth then
    (match err_a with
     | some err => Except.error err
     | none => Except.ok true, args_a)
  else
    match err_a, err_b with
    | none, none =>
      if args_a.head ≤ args_b.head then (Except.ok true, args_a)
      else (Except.ok false, args_b)
    | none, some _ => (Except.ok true, args_a)
    | some _, none => (Except.ok false, args_b)
    | some e1, some e2 => (Except.error (e1.combine_with e2), args)

/-- Extract the error of a run, mirroring the `(res, err)` pairs built in
`ParseOrElse::eval`. -/
def errOf {T : Type} : Except info.Error T → Option info.Error
  | Except.ok _ => none
  | Except.error e => some e

/-- `ParseOrElse::eval` from `structs.rs`: run both branches on clones of the
pool (each with `head` reset to `usize::MAX`), pick the winner with
`this_or_that_picks_first`, record conflict diagnostics, and return the
winner's value with its pool live. -/
def ParseOrElse_eval {T : Type} [Inhabited T] (this that : ParserFn T)
    (args : State) : Except info.Error T × State :=
  let pa := this.eval { args with head := usizeMax }
  let pb := that.eval { args with head := usizeMax }
  match this_or_that_picks_first (errOf pa.1) (errOf pb.1) args pa.2 pb.2 with
  | (Except.error e, live) => (Except.error e, live)
  | (Except.ok true, live) =>
    let live' :=
      match pb.1 with
      | Except.ok _ => remember_conflict live this.meta pb.2 that.meta
      | Except.error _ => remember_winner live this.meta
    (Except.ok (pa.1.toOption.get!), live')
  | (Except.ok false, live) =>
    let live' :=
      match pa.1 with
      | Except.ok _ => remember_conflict live that.meta pa.2 this.meta
      | Except.error _ => remember_winner live that.meta
    (Except.ok (pb.1.toOption.get!), live')

/-- `parse_option` from `structs.rs`: attempt the inner parser on the pool;
on failure restore the pool to its pre-attempt state, then swallow a caught
`Message` (catch mode) or a `Missing` that consumed nothing, propagating
everything else. -/
def parse_option {T : Type} (parser : ParserFn T) (args : State) (catchFlag : Bool) :
    Except info.Error (Option T) × State :=
  match parser.eval args with
  | (Except.ok val, args') => (Except.ok (some val), args')
  | (Except.error err, args') =>
    match err with
    | info.Error.Message _ _ =>
      if catchFlag then (Except.ok none, args) else (Except.error err, args)
    | info.Error.ParseFailure _ => (Except.error err, args)
    | info.Error.Missing _ =>
      if args.len = args'.len then (Except.ok none, args)
      else (Except.error err, args)

/-- `ParseOptional::eval` from `structs.rs`. -/
def ParseOptional_eval {T : Type} (inner : ParserFn T) (catchFlag : Bool)
    (args : State) : Except info.Error (Option T) × State :=
  parse_option inner args catchFlag

/-- The loop of `ParseMany::eval`, with explicit fuel (the loop performs at
most `remaining + 2` iterations: every continued iteration either shrinks the
pool or is the first collected value). -/
def ParseMany_go {T : Type} (inner : ParserFn T) (catchFlag : Bool) :
    Nat → State → List T → Nat → Except info.Error (List T) × State
  | 0, args, res, _ => (Except.ok res.reverse, args)
  | fuel + 1, args, res, len =>
    match parse_option inner args catchFlag with
    | (Except.error e, args') => (Except.error e, args')
    | (Except.ok none, args') => (Except.ok res.reverse, args')
    | (Except.ok (some val), args') =>
      if args'.len < len ∨ res.isEmpty then
        ParseMany_go inner catchFlag fuel args' (val :: res) args'.len
      else (Except.ok res.reverse, args')

/-- `ParseMany::eval` from `structs.rs`. -/
def ParseMany_eval {T : Type} (inner : ParserFn T) (catchFlag : Bool)
    (args : State) : Except info.Error (List T) × State :=
  ParseMany_go inner catchFlag (args.len + 2) args [] args.len

/-- `ParseFallback::eval` from `structs.rs`: run the inner parser on a clone;
commit the clone on success; on `Missing` or a recoverable `Message` keep the
original pool and produce the fallback value; propagate everything else. -/
def ParseFallback_eval {T : Type} (inner : ParserFn T) (value : T)
    (args : State) : Except info.Error T × State :=
  match inner.eval args with
  | (Except.ok ok, clone) => (Except.ok ok, clone)
  | (Except.error e, _) =>
    match e with
    | info.Error.Message _ false => (Except.error e, args)
    | info.Error.ParseFailure _ => (Except.error e, args)
    | info.Error.Missing _ => (Except.ok value, args)
    | info.Error.Message _ true => (Except.ok value, args)

/-- `ParseFallbackWith::eval` from `structs.rs`: like `ParseFallback` but the
substituted value comes from a fallible function whose error becomes an
unrecoverable `Message`. -/
def ParseFallbackWith_eval {T : Type} (inner : ParserFn T)
    (fallback : Unit → Except String T) (args : State) :
    Except info.Error T × State :=
  match inner.eval args with
  | (Except.ok ok, clone) => (Except.ok ok, clone)
  | (Except.error e, _) =>
    match e with
    | info.Error.Message _ false => (Except.error e, args)
    | info.Error.ParseFailure _ => (Except.error e, args)
    | info.Error.Missing _ =>
      (match fallback () with
       | Except.ok ok => Except.ok ok
       | Except.error msg => Except.error (info.Error.Message msg false), args)
    | info.Error.Message _ true =>
      (match fallback () with
       | Except.ok ok => Except.ok ok
       | Except.error msg => Except.error (info.Error.Message msg false), args)

mutual

/-- `meta_items` from `ParseAnywhere::eval` in `structs.rs`: the expected
items of a meta (first element of an `And`, union over an `Or`). -/
def meta_items : Meta → List Item
  | Meta.And xs => meta_items_and xs
  | Meta.Or xs => meta_items_or xs
  | Meta.Item i => [i]
  | Meta.Optional m => meta_items m
  | Meta.Required m => meta_items m
  | Meta.Many m => meta_items m
  | Meta.Anywhere m => meta_items m
  | Meta.Decorated m _ _ => meta_items m
  | Meta.Skip => []
  | Meta.HideUsage _ => []

/-- The `Meta::And` case of `meta_items`: items of the first element. -/
def meta_items_and : List Meta → List Item
  | [] => []
  | x :: _ => meta_items x

/-- The `Meta::Or` case of `meta_items`: items of every element. -/
def meta_items_or : List Meta → List Item
  | [] => []
  | x :: xs => meta_items x ++ meta_items_or xs

end

/-- The `while let` loop of `classify_anywhere`: consume leading positional
items, returning the collected `(metavar, help)` fields and whatever part of
the list the iterator has not consumed when the loop ends. -/
def classify_fields : List Meta → List (String × Option String) × List Meta
  | [] => ([], [])
  | Meta.Item (Item.Positional metavar _ help _) :: rest =>
    let p := classify_fields rest
    ((metavar, help) :: p.1, p.2)
  | _ :: rest => ([], rest)

/-- `classify_anywhere` from `structs.rs`: an `And` of a flag followed only
by positional items becomes a `MultiArg` item; an `And` that does not start
with a flag item is returned as is; anything else is wrapped in `Anywhere`. -/
def classify_anywhere (meta : Meta) : Meta :=
  match meta with
  | Meta.And [] => meta
  | Meta.And (Meta.Item (Item.Flag name shorts help _) :: rest) =>
    let p := classify_fields rest
    if p.2.isEmpty then Meta.Item (Item.MultiArg name shorts help p.1)
    else Meta.Anywhere meta
  | Meta.And (_ :: _) => meta
  | _ => Meta.Anywhere meta

/-- `Args::restrict_to_range` of the pool version `structs.rs` builds against
(not under src/).  Modelled from the spec: "restrict scope to a single token"
/ "restrict scope to from this candidate to the end" — it is the scope
replacement `set_scope`. -/
def State.restrict_to_range (s : State) (range : Nat × Nat) : State :=
  s.set_scope range

/-- `Args::copy_usage_from` of the pool version `structs.rs` builds against
(not under src/).  Modelled from the spec: tokens in the given range "retain
whatever outcome the outer context intended for them (explicitly copy forward
their usage/diagnostic state)" — copy the statuses inside the range from the
other pool. -/
def State.copy_usage_from (s other : State) (range : Nat × Nat) : State :=
  { s with item_state := s.item_state.mapIdx (fun i st =>
      if range.1 ≤ i ∧ i < range.2 then other.item_state.getD i st else st) }

/-- The empty pool `Args::from(&[])` used by `ParseAnywhere`'s final probe. -/
def emptyState : State := (State.construct [] [] []).1

/-- The tail of `ParseAnywhere::eval` after the scan is exhausted: try the
inner parser once more on an empty pool; a success is returned as the result,
otherwise the best recorded missing items are reported (with the original
pool left live). -/
def ParseAnywhere_finalize {T : Type} (inner : ParserFn T) (args : State)
    (best_missing : List Item) : Except info.Error T × State :=
  match inner.eval emptyState with
  | (Except.ok val, _) => (Except.ok val, args)
  | (Except.error _, _) => (Except.error (info.Error.Missing best_missing), args)

/-- The candidate scan of `ParseAnywhere::eval`: for each candidate start, a
one-token probe decides whether a real (from-candidate-to-end) run is
attempted; a success or a help/version termination commits immediately; a
`Missing` updates the best-progress record; a consuming `Message` aborts the
scan unless catching. -/
def ParseAnywhere_go {T : Type} (inner : ParserFn T) (catchFlag : Bool)
    (args : State) :
    List (Nat × State) → List Item → Nat → Except info.Error T × State
  | [], best_missing, _ => ParseAnywhere_finalize inner args best_missing
  | (start, this_arg) :: rest, best_missing, best_consumed =>
    let scratch := this_arg.restrict_to_range (start, start + 1)
    let before := scratch.len
    if before = 0 then ParseAnywhere_finalize inner args best_missing
    else
      let probe := inner.eval scratch
      if before = probe.2.len then
        ParseAnywhere_go inner catchFlag args rest best_missing best_consumed
      else
        match inner.eval this_arg with
        | (Except.ok val, this') =>
          (Except.ok val, this'.copy_usage_from args (0, start))
        | (Except.error (info.Error.ParseFailure f), this') =>
          (Except.error (info.Error.ParseFailure f),
           this'.copy_usage_from args (0, start))
        | (Except.error (info.Error.Missing items), this') =>
          let consumed := args.len - this'.len
          if best_consumed ≤ consumed then
            ParseAnywhere_go inner catchFlag args rest items consumed
          else
            ParseAnywhere_go inner catchFlag args rest best_missing best_consumed
        | (Except.error (info.Error.Message t r), this') =>
          let consumed := args.len - this'.len
          if 0 < consumed ∧ ¬catchFlag then
            (Except.error (info.Error.Message t r),
             this'.copy_usage_from args (0, start))
          else
            ParseAnywhere_go inner catchFlag args rest best_missing best_consumed

/-- `ParseAnywhere::eval` from `structs.rs`. -/
def ParseAnywhere_eval {T : Type} (inner : ParserFn T) (catchFlag : Bool)
    (args : State) : Except info.Error T × State :=
  ParseAnywhere_go inner catchFlag args args.rangesList
    (meta_items (classify_anywhere inner.meta)) 0

/-- A pool with its conflict map cleared: `or_else`'s winner bookkeeping
(`remember_winner`/`remember_conflict`) touches only the conflict map, so
"the winning clone is swapped into the live pool" is stated up to it. -/
def State.sans_conflicts (s : State) : State := { s with conflicts := [] }

/-- A parser that succeeds with `v`, recording `hd` as its first-consumed
index; used to exercise the combinators on concrete pools. -/
def constParser (v hd : Nat) : ParserFn Nat :=
  { eval := fun s => (Except.ok v, { s with head := hd }), meta := Meta.Skip }

/-- A parser that fails with `e` without touching the pool. -/
def failParser (e : info.Error) : ParserFn Nat :=
  { eval := fun s => (Except.error e, s), meta := Meta.Skip }

/-- A parser that fails with `Missing` after entering a nested command
(one level deeper). -/
def deepMissing : ParserFn Nat :=
  { eval := fun s =>
      (Except.error (info.Error.Missing []), { s with path := s.path ++ ["cmd"] }),
    meta := Meta.Skip }

/-- A parser that consumes the token at index 0 and then fails with
`Missing`. -/
def consumeMissing : ParserFn Nat :=
  { eval := fun s => (Except.error (info.Error.Missing []), s.remove 0),
    meta := Meta.Skip }

/-- A required-flag parser over the pool primitives: succeed (with 0) when
the flag is present, fail with `Missing` otherwise. -/
def reqFlag (c : Char) : ParserFn Nat :=
  { eval := fun s =>
      match s.take_flag { short := [c], long := [] } with
      | (true, s1) => (Except.ok 0, s1)
      | (false, s1) => (Except.error (info.Error.Missing []), s1),
    meta := Meta.Skip }

/-- The number of indices strictly inside the scope whose status is not
`Parsed` (the Rust slice `item_state[scope]` filtered by `present`). -/
def presentCountIn (item_state : List ItemState) (scope : Nat × Nat) : Nat :=
  ((item_state.drop scope.1).take (scope.2 - scope.1)).countP (fun st => st.present)

/-- The cached-count invariant: `remaining` equals the number of present
indices strictly inside the active scope. -/
def RemainingInv (s : State) : Prop :=
  s.remaining = presentCountIn s.item_state s.scope

/-- Pool states reachable from construction via the primitive mutating
operations. -/
inductive Reachable : State → Prop where
  | construct (input : List String) (sf sa : List Char) :
      Reachable (State.construct input sf sa).1
  | remove (s : State) (ix : Nat) : Reachable s → Reachable (s.remove ix)
  | set_scope (s : State) (r : Nat × Nat) : Reachable s → Reachable (s.set_scope r)
  | take_flag (s : State) (n : NamedArg) : Reachable s → Reachable (s.take_flag n).2
  | take_arg (s : State) (n : NamedArg) (adj : Bool) :
      Reachable s → Reachable (s.take_arg n adj).2
  | take_positional_word (s : State) (mv : String) :
      Reachable s → Reachable (s.take_positional_word mv).2
  | take_cmd (s : State) (w : String) : Reachable s → Reachable (s.take_cmd w).2

/-! ## Helper lemmas -/

/-- A `zip` entry determines entries of both lists and conversely. -/
theorem zip_get?_eq_some {α β : Type} :
    ∀ (a : List α) (b : List β) (i : Nat) (x : α) (y : β),
      ((a.zip b).get? i = some (x, y)) ↔ (a.get? i = some x ∧ b.get? i = some y) := by
  intro a
  induction a with
  | nil => intro b i x y; simp
  | cons ha ta ih =>
    intro b i x y
    cases b with
    | nil => simp
    | cons hb tb =>
      cases i with
      | zero => simp [List.zip_cons_cons]
      | succ j => simpa [List.zip_cons_cons] using ih tb j x y

/-- If two status lists agree on parsed-ness everywhere, the
`pick_winner` loop reports the receiver as winner with no diverging index. -/
theorem pick_winner_aux_all_eq :
    ∀ (l : List (ItemState × ItemState)) (k : Nat),
      (∀ p ∈ l, p.1.parsed = p.2.parsed) →
      State.pick_winner_aux l k = (true, none) := by
  intro l
  induction l with
  | nil => intro k _; rfl
  | cons hd tl ih =>
    intro k h
    obtain ⟨me, other⟩ := hd
    have h1 : me.parsed = other.parsed := h (me, other) (List.mem_cons_self _ _)
    simp only [State.pick_winner_aux, h1, ne_eq, not_true_eq_false, ite_false]
    exact ih (k + 1) (fun p hp => h p (List.mem_cons_of_mem _ hp))

/-- The `pick_winner` loop stops at the first index where parsed-ness
differs and reports the receiver's parsed-ness there. -/
theorem pick_winner_aux_first_diff :
    ∀ (l : List (ItemState × ItemState)) (k i : Nat) (pa pb : ItemState),
      l.get? i = some (pa, pb) → pa.parsed ≠ pb.parsed →
      (∀ j q, j < i → l.get? j = some q → q.1.parsed = q.2.parsed) →
      State.pick_winner_aux l k = (pa.parsed, some (k + i)) := by
  intro l
  induction l with
  | nil => intro k i pa pb h; simp at h
  | cons hd tl ih =>
    intro k i pa pb hget hne hprev
    obtain ⟨me, other⟩ := hd
    cases i with
    | zero =>
      simp only [List.get?] at hget
      injection hget with hget
      injection hget with hme hother
      subst hme
      subst hother
      simp [State.pick_winner_aux, hne]
    | succ j =>
      have h0 : me.parsed = other.parsed :=
        hprev 0 (me, other) (Nat.succ_pos j) rfl
      simp only [State.pick_winner_aux, h0, ne_eq, not_true_eq_false, ite_false]
      have hrec := ih (k + 1) j pa pb (by simpa using hget) hne
        (fun j' q hj hq => hprev (j' + 1) q (Nat.succ_lt_succ hj) (by simpa using hq))
      rw [hrec]
      congr 2
      omega

/-- C9 (claim theorem below) needs membership facts for the present-items
iterator. -/
theorem mem_itemsIterList {s : State} {ix : Nat} {a : Arg} :
    (ix, a) ∈ s.itemsIterList ↔
      ((s.scope.1 ≤ ix ∧ ix < s.scope.2) ∧
       (∃ st, s.item_state.get? ix = some st ∧ st.present = true) ∧
       s.items.get? ix = some a) := by
  unfold State.itemsIterList
  rw [List.mem_filterMap]
  constructor
  · rintro ⟨j, hj, hfj⟩
    rw [List.mem_range'_1] at hj
    rcases hst : s.item_state.get? j with _ | st <;> rw [hst] at hfj
    · rcases hit : s.items.get? j with _ | aj <;> rw [hit] at hfj <;> simp at hfj
    · rcases hit : s.items.get? j with _ | aj <;> rw [hit] at hfj
      · simp at hfj
      · by_cases hpres : st.present = true
        · simp only [hpres, if_true] at hfj
          injection hfj with h1
          injection h1 with hix ha
          subst hix
          subst ha
          refine ⟨⟨hj.1, ?_⟩, ⟨st, hst, hpres⟩, hit⟩
          omega
        · simp only [Bool.not_eq_true] at hpres
          simp [hpres] at hfj
  · rintro ⟨⟨hlo, hhi⟩, ⟨st, hst, hpres⟩, hit⟩
    refine ⟨ix, ?_, ?_⟩
    · rw [List.mem_range'_1]
      omega
    · rw [hst, hit]
      simp [hpres]

/-- If the first `=` split finds nothing, there was no `=`. -/
theorem splitEq_eq_none : ∀ (l : List Char), '=' ∉ l → splitEq l = none := by
  intro l
  induction l with
  | nil => intro _; rfl
  | cons c rest ih =>
    intro h
    have hc : ¬(c = '=') := fun hc => h (hc ▸ List.mem_cons_self c rest)
    have hr : splitEq rest = none := ih (fun hm => h (List.mem_cons_of_mem c hm))
    unfold splitEq
    simp [hc, hr]

/-- A dashed bundle with at least one character, no `=` and no second dash
splits as an unattached short form. -/
theorem split_os_argument_short_bundle (c0 : Char) (body : List Char)
    (hdash : c0 ≠ '-') (heq : '=' ∉ c0 :: body) :
    split_os_argument (String.mk ('-' :: c0 :: body)) =
      some (ArgType.Short, String.mk (c0 :: body), none) := by
  have hsplit : splitEq (c0 :: body) = none := splitEq_eq_none _ heq
  unfold split_os_argument
  simp only [String.mk]
  show (if ('-' : Char) = '-' then _ else none) = _
  rw [if_pos rfl]
  show (if c0 = '-' then _ else splitNamed ArgType.Short (c0 :: body)) = _
  rw [if_neg hdash]
  unfold splitNamed
  rw [hsplit]

/-! ## Claim theorems -/

/-- C1: during pool construction, a raw short-flag bundle (more than one
character, no `=`-attached value) is classified against the known flag
letters and value-taking letters: if every character is a flag letter and the
first is a value-taking letter, construction records an `Ambiguity` error
with the bundle's position and text and classifies no further raw items; if
only the former holds, the bundle expands to one unattached `Short` token per
character; if only the latter holds, it becomes one attached `Short` plus a
`Word` with the remaining characters; otherwise it becomes a single `Word`. -/
theorem short_bundle_disambiguation
    (short_flags short_args : List Char) (c0 c1 : Char) (cs : List Char)
    (rest : List String) (items : List Arg) (marker : Option Nat)
    (hdash : c0 ≠ '-') (heq : '=' ∉ c0 :: c1 :: cs) :
    ((c0 :: c1 :: cs).all (fun c => short_flags.contains c) = true →
      short_args.contains c0 = true →
      tokenize short_flags short_args (String.mk ('-' :: c0 :: c1 :: cs) :: rest)
          items false marker =
        (items ++ [Arg.Word (String.mk ('-' :: c0 :: c1 :: cs))], marker,
         some (error.Message.Ambiguity items.length (String.mk (c0 :: c1 :: cs))))) ∧
    ((c0 :: c1 :: cs).all (fun c => short_flags.contains c) = true →
      short_args.contains c0 = false →
      tokenize short_flags short_args (String.mk ('-' :: c0 :: c1 :: cs) :: rest)
          items false marker =
        tokenize short_flags short_args rest
          (items ++ (Arg.Short c0 false (String.mk ('-' :: c0 :: c1 :: cs)) ::
            (c1 :: cs).map (fun c => Arg.Short c false ""))) false marker) ∧
    ((c0 :: c1 :: cs).all (fun c => short_flags.contains c) = false →
      short_args.contains c0 = true →
      tokenize short_flags short_args (String.mk ('-' :: c0 :: c1 :: cs) :: rest)
          items false marker =
        tokenize short_flags short_args rest
          (items ++ [Arg.Short c0 true (String.mk ('-' :: c0 :: c1 :: cs)),
            Arg.Word (String.mk (c1 :: cs))]) false marker) ∧
    ((c0 :: c1 :: cs).all (fun c => short_flags.contains c) = false →
      short_args.contains c0 = false →
      tokenize short_flags short_args (String.mk ('-' :: c0 :: c1 :: cs) :: rest)
          items false marker =
        tokenize short_flags short_args rest
          (items ++ [Arg.Word (String.mk ('-' :: c0 :: c1 :: cs))]) false marker) := by
  have hsplit := split_os_argument_short_bundle c0 (c1 :: cs) hdash heq
  refine ⟨?_, ?_, ?_, ?_⟩ <;> intro hcf hca <;>
    rw [tokenize] <;>
    simp only [if_false, Bool.false_eq_true, ite_false, hsplit, hcf, hca]

/-- C1 witness: `-abc` with known flags `{a,b,c}` and value letters `{a}` is
ambiguous at position 0 with text `abc`, and the following raw items are not
classified. -/
theorem short_bundle_disambiguation_witness :
    tokenize ['a', 'b', 'c'] ['a']
        [String.mk ['-', 'a', 'b', 'c'], String.mk ['-', 'a']] [] false none =
      ([Arg.Word (String.mk ['-', 'a', 'b', 'c'])], none,
       some (error.Message.Ambiguity 0 (String.mk ['a', 'b', 'c']))) := by
  have h := short_bundle_disambiguation ['a', 'b', 'c'] ['a'] 'a' 'b' ['c']
    [String.mk ['-', 'a']] [] none (by decide) (by decide)
  exact h.1 (by decide) (by decide)

/-- C6: `take_arg` returns `Ok None` when no present in-scope token matches;
when one matches at `key_ix`, the token at `key_ix + 1` must be a present
in-scope `Word` — otherwise the call fails with `NoArgument key_ix` and the
pool is untouched; on success both tokens are marked parsed and the value is
returned. -/
theorem take_arg_spec (s : State) (named : NamedArg) (adjacent : Bool) :
    (s.itemsIterList.find? (fun p => named.matches_arg p.2 adjacent) = none →
      s.take_arg named adjacent = (Except.ok none, s)) ∧
    (∀ kix a w,
      s.itemsIterList.find? (fun p => named.matches_arg p.2 adjacent) = some (kix, a) →
      s.get (kix + 1) = some (Arg.Word w) →
      s.take_arg named adjacent =
        (Except.ok (some w),
         (({ s with current := some (kix + 1) }).remove kix).remove (kix + 1)) ∧
      ((({ s with current := some (kix + 1) }).remove kix).remove (kix + 1)).present
          kix = some false ∧
      ((({ s with current := some (kix + 1) }).remove kix).remove (kix + 1)).present
          (kix + 1) = some false) ∧
    (∀ kix a,
      s.itemsIterList.find? (fun p => named.matches_arg p.2 adjacent) = some (kix, a) →
      (∀ w, s.get (kix + 1) ≠ some (Arg.Word w)) →
      s.take_arg named adjacent =
        (Except.error (error.Error.Message (error.Message.NoArgument kix)), s)) := by
  refine ⟨?_, ?_, ?_⟩
  · intro hfind
    unfold State.take_arg
    rw [hfind]
  · intro kix a w hfind hget
    have hmem : (kix, a) ∈ s.itemsIterList := List.mem_of_find?_eq_some hfind
    rw [mem_itemsIterList] at hmem
    obtain ⟨⟨hlo, hhi⟩, ⟨st, hst, hpres⟩, _⟩ := hmem
    have hglt : kix < s.item_state.length := by
      rw [List.get?_eq_some] at hst
      exact hst.1
    -- the value token is present in scope
    have hval : s.scope.1 ≤ kix + 1 ∧ kix + 1 < s.scope.2 ∧
        ((s.item_state.get? (kix + 1)).map ItemState.present).getD false = true := by
      unfold State.get at hget
      by_cases hc : s.scope.1 ≤ kix + 1 ∧ kix + 1 < s.scope.2 ∧
          ((s.item_state.get? (kix + 1)).map ItemState.present).getD false
      · exact hc
      · rw [if_neg hc] at hget
        exact absurd hget (by simp)
    obtain ⟨hv1, hv2, hv3⟩ := hval
    -- the first remove fires
    have hrem1 : ({ s with current := some (kix + 1) }).remove kix =
        { s with current := some kix, remaining := s.remaining - 1,
                 item_state := s.item_state.set kix ItemState.Parsed } := by
      unfold State.remove
      rw [if_pos]
      exact ⟨hlo, hhi, by rw [hst]; simpa using hpres⟩
    -- the second remove fires
    have hget2 : (s.item_state.set kix ItemState.Parsed).get? (kix + 1) =
        s.item_state.get? (kix + 1) :=
      List.get?_set_ne ItemState.Parsed s.item_state (by omega)
    have hrem2 : ({ s with
            current := some kix,
            remaining := s.remaining - 1,
            item_state := s.item_state.set kix ItemState.Parsed } : State).remove (kix + 1) =
        { s with current := some (kix + 1), remaining := s.remaining - 1 - 1,
                 item_state := (s.item_state.set kix ItemState.Parsed).set (kix + 1)
                   ItemState.Parsed } := by
      unfold State.remove
      rw [if_pos]
      exact ⟨hv1, hv2, by rw [hget2]; exact hv3⟩
    refine ⟨?_, ?_, ?_⟩
    · unfold State.take_arg
      rw [hfind]
      dsimp only
      rw [hget]
    · rw [hrem1, hrem2]
      unfold State.present
      have h1 : ((s.item_state.set kix ItemState.Parsed).set (kix + 1)
          ItemState.Parsed).get? kix = some ItemState.Parsed := by
        rw [List.get?_set_ne ItemState.Parsed _ (by omega)]
        exact List.get?_set_eq_of_lt ItemState.Parsed hglt
      rw [h1]
      rfl
    · rw [hrem1, hrem2]
      unfold State.present
      have hvlt : kix + 1 < s.item_state.length := by
        rcases hg : s.item_state.get? (kix + 1) with _ | stv
        · rw [hg] at hv3; simp at hv3
        · rw [List.get?_eq_some] at hg
          exact hg.1
      have h1 : ((s.item_state.set kix ItemState.Parsed).set (kix + 1)
          ItemState.Parsed).get? (kix + 1) = some ItemState.Parsed :=
        List.get?_set_eq_of_lt ItemState.Parsed (by simpa using hvlt)
      rw [h1]
      rfl
  · intro kix a hfind hne
    rcases hg : s.get (kix + 1) with _ | arg
    · simp [State.take_arg, hfind, hg]
    · cases arg with
      | Word w => exact absurd hg (hne w)
      | Short c att os => simp [State.take_arg, hfind, hg]
      | Long n att os => simp [State.take_arg, hfind, hg]
      | PosWord os => simp [State.take_arg, hfind, hg]

/-- C6 witness: on the pool built from `["-s", "12"]`, taking the argument of
short flag `s` succeeds with value `12` and both tokens end up parsed. -/
theorem take_arg_spec_witness :
    ((State.construct [String.mk ['-', 's'], String.mk ['1', '2']] [] []).1.take_arg
        ⟨['s'], []⟩ false).1 = Except.ok (some (String.mk ['1', '2'])) := by
  have h := (take_arg_spec (State.construct [String.mk ['-', 's'],
    String.mk ['1', '2']] [] []).1 ⟨['s'], []⟩ false).2.1 0
    (Arg.Short 's' false (String.mk ['-', 's'])) (String.mk ['1', '2'])
    (by decide) (by decide)
  rw [h.1]

/-- C9: `pick_winner` returns `(true, none)` whenever the two status lists
never disagree on parsed-ness at a common index (in particular when they are
identical); otherwise it returns the receiver's parsed-ness at the first
differing index together with that index. -/
theorem pick_winner_spec (a b : State)
    (hlen : a.item_state.length = b.item_state.length) :
    ((∀ i sa sb, a.item_state.get? i = some sa → b.item_state.get? i = some sb →
        sa.parsed = sb.parsed) →
      a.pick_winner b = (true, none)) ∧
    (∀ i0 sa sb, a.item_state.get? i0 = some sa → b.item_state.get? i0 = some sb →
      sa.parsed ≠ sb.parsed →
      (∀ j sa' sb', j < i0 → a.item_state.get? j = some sa' →
        b.item_state.get? j = some sb' → sa'.parsed = sb'.parsed) →
      a.pick_winner b = (sa.parsed, some i0)) := by
  constructor
  · intro h
    unfold State.pick_winner
    apply pick_winner_aux_all_eq
    intro p hp
    rw [List.mem_iff_get?] at hp
    obtain ⟨n, hn⟩ := hp
    obtain ⟨p1, p2⟩ := p
    rw [zip_get?_eq_some] at hn
    exact h n p1 p2 hn.1 hn.2
  · intro i0 sa sb ha hb hne hprev
    unfold State.pick_winner
    have h0 := pick_winner_aux_first_diff (a.item_state.zip b.item_state) 0 i0 sa sb
      ((zip_get?_eq_some _ _ _ _ _).mpr ⟨ha, hb⟩) hne
      (fun j q hj hq => by
        obtain ⟨q1, q2⟩ := q
        rw [zip_get?_eq_some] at hq
        exact hprev j q1 q2 hj hq.1 hq.2)
    simpa using h0

/-- In positional-only mode every remaining raw item becomes one `PosWord`
token, and neither the marker position nor the error change. -/
theorem tokenize_posOnly (sf sa : List Char) :
    ∀ (input : List String) (items : List Arg) (marker : Option Nat),
      tokenize sf sa input items true marker =
        (items ++ input.map Arg.PosWord, marker, none) := by
  intro input
  induction input with
  | nil => intro items marker; simp [tokenize]
  | cons os rest ih =>
    intro items marker
    rw [tokenize]
    simp only [if_true]
    rw [ih (items ++ [Arg.PosWord os]) marker]
    simp

/-- Each tokenization step only appends to the accumulated token list. -/
theorem tokenize_extends_step {sf sa : List Char} {rest : List String}
    {items : List Arg} (X : List Arg) {p : Bool} {m : Option Nat}
    (ih : ∀ (items : List Arg) (p : Bool) (m : Option Nat),
      ∃ tail, (tokenize sf sa rest items p m).1 = items ++ tail) :
    ∃ tail, (tokenize sf sa rest (items ++ X) p m).1 = items ++ tail := by
  obtain ⟨t, ht⟩ := ih (items ++ X) p m
  exact ⟨X ++ t, by rw [ht, List.append_assoc]⟩

/-- The token list produced by tokenization extends the accumulator. -/
theorem tokenize_extends (sf sa : List Char) :
    ∀ (input : List String) (items : List Arg) (p : Bool) (m : Option Nat),
      ∃ tail, (tokenize sf sa input items p m).1 = items ++ tail := by
  intro input
  induction input with
  | nil => intro items p m; exact ⟨[], by simp [tokenize]⟩
  | cons os rest ih =>
    intro items p m
    rw [tokenize]
    dsimp only
    repeat' split
    all_goals first
      | exact ⟨[Arg.Word os], rfl⟩
      | exact tokenize_extends_step _ ih

/-- If tokenization reports a `--` marker position that was not handed in,
the final token list holds the token `PosWord "--"` at that position. -/
theorem tokenize_marker_posword (sf sa : List Char) :
    ∀ (input : List String) (items : List Arg) (p : Bool) (m : Option Nat) (ix : Nat),
      (tokenize sf sa input items p m).2.1 = some ix →
      m = some ix ∨
      ((tokenize sf sa input items p m).1.get? ix = some (Arg.PosWord "--") ∧
       ix < (tokenize sf sa input items p m).1.length) := by
  intro input
  induction input with
  | nil => intro items p m ix h; exact Or.inl h
  | cons os rest ih =>
    intro items p m ix
    rw [tokenize]
    dsimp only
    repeat' split
    all_goals first
      | exact fun h => Or.inl h
      | exact fun h => ih _ _ _ _ h
      | (intro h
         rcases ih _ _ _ _ h with h' | h'
         · injection h' with h'
           subst h'
           right
           obtain ⟨t, ht⟩ := tokenize_extends sf sa rest
             (items ++ [Arg.PosWord os]) true (some items.length)
           rw [ht, List.append_assoc]
           constructor
           · rw [List.get?_append_right (Nat.le_refl _)]
             simp only [Nat.sub_self]
             have hos : os = "--" := by assumption
             rw [hos]
             rfl
           · simp only [List.length_append, List.length_cons]
             omega
         · exact Or.inr h')

/-- C8: once a raw `--` item is met outside positional mode, every later raw
item — flags included — becomes a `PosWord` token, and `take_positional_word`
returns such a token's text (tagged strict) instead of reinterpreting it. -/
theorem double_dash_positional :
    (∀ (sf sa : List Char) (post : List String) (items : List Arg)
        (marker : Option Nat),
      tokenize sf sa ("--" :: post) items false marker =
        (items ++ Arg.PosWord "--" :: post.map Arg.PosWord,
         some items.length, none)) ∧
    (∀ (s : State) (ix : Nat) (w metavar : String),
      s.itemsIterList.head? = some (ix, Arg.PosWord w) →
      (s.take_positional_word metavar).1 = Except.ok (some (true, w))) := by
  constructor
  · intro sf sa post items marker
    rw [tokenize]
    have hsplit : split_os_argument "--" = none := rfl
    simp only [if_false, Bool.false_eq_true, ite_false, hsplit, if_pos rfl]
    rw [tokenize_posOnly sf sa post (items ++ [Arg.PosWord "--"]) (some items.length)]
    simp
  · intro s ix w metavar hhead
    unfold State.take_positional_word
    rw [hhead]

/-- C8 witness: `["--", "-x"]` tokenizes to two positional words with the
marker at 0, and a pool whose first present token is `PosWord "-x"` yields
`"-x"` as a strict positional. -/
theorem double_dash_positional_witness :
    tokenize [] [] ["--", "-x"] [] false none =
      ([Arg.PosWord "--", Arg.PosWord "-x"], some 0, none) ∧
    ((State.construct ["--", "-x"] [] []).1.take_positional_word "A").1 =
      Except.ok (some (true, "-x")) := by
  constructor
  · have h := double_dash_positional.1 [] [] ["-x"] [] none
    simpa using h
  · exact double_dash_positional.2 (State.construct ["--", "-x"] [] []).1 1 "-x" "A"
      (by decide)

/-- C10: when construction records a `--` marker, the marker itself sits in
the token list as `PosWord "--"` but starts out `Parsed` with `remaining`
discounted, so it is invisible to `get` and the items iterator and can never
be the token a primitive consumes. -/
theorem double_dash_marker_consumed (input : List String) (sf sa : List Char)
    (ix : Nat) (hmk : (tokenize sf sa input [] false none).2.1 = some ix) :
    (State.construct input sf sa).1.items.get? ix = some (Arg.PosWord "--") ∧
    (State.construct input sf sa).1.present ix = some false ∧
    (State.construct input sf sa).1.get ix = none ∧
    (∀ p ∈ (State.construct input sf sa).1.itemsIterList, p.1 ≠ ix) ∧
    (State.construct input sf sa).1.remaining + 1 =
      (State.construct input sf sa).1.items.length ∧
    (∀ (metavar : String) (b : Bool) (w : String) (s' : State),
      (State.construct input sf sa).1.take_positional_word metavar =
        (Except.ok (some (b, w)), s') → s'.current ≠ some ix) := by
  rcases tokenize_marker_posword sf sa input [] false none ix hmk with h | h
  · exact absurd h (by simp)
  obtain ⟨hgt, hlt⟩ := h
  have hs : (State.construct input sf sa).1 =
      { items := (tokenize sf sa input [] false none).1,
        item_state := (List.replicate (tokenize sf sa input [] false none).1.length
          ItemState.Unparsed).set ix ItemState.Parsed,
        remaining := (tokenize sf sa input [] false none).1.length - 1,
        current := none,
        path := [],
        scope := (0, (tokenize sf sa input [] false none).1.length),
        head := usizeMax,
        conflicts := [] } := by
    unfold State.construct
    dsimp only
    rw [hmk]
  have hstate : ((List.replicate (tokenize sf sa input [] false none).1.length
      ItemState.Unparsed).set ix ItemState.Parsed).get? ix = some ItemState.Parsed :=
    List.get?_set_eq_of_lt ItemState.Parsed (by simpa using hlt)
  have hpresent : (State.construct input sf sa).1.present ix = some false := by
    rw [hs]
    unfold State.present
    rw [hstate]
    rfl
  have hiter : ∀ p ∈ (State.construct input sf sa).1.itemsIterList, p.1 ≠ ix := by
    rintro ⟨i, a⟩ hp rfl
    rw [mem_itemsIterList] at hp
    obtain ⟨_, ⟨st, hst, hpres⟩, _⟩ := hp
    rw [hs] at hst
    dsimp only at hst
    rw [hstate] at hst
    injection hst with hst
    rw [← hst] at hpres
    exact absurd hpres (by decide)
  refine ⟨?_, hpresent, ?_, hiter, ?_, ?_⟩
  · rw [hs]
    exact hgt
  · unfold State.get
    rw [if_neg]
    intro hcond
    have := hcond.2.2
    rw [hs] at this
    unfold State.present at hpresent
    rw [hs] at hpresent
    rw [hstate] at this
    exact absurd this (by decide)
  · rw [hs]
    simp only [List.length_set, List.length_replicate]
    omega
  · intro metavar b w s' htake
    rcases hl : (State.construct input sf sa).1.itemsIterList with _ | ⟨⟨i, a⟩, tl⟩
    · unfold State.take_positional_word at htake
      rw [hl] at htake
      simp at htake
    · have hne : i ≠ ix := hiter (i, a) (by rw [hl]; exact List.mem_cons_self _ _)
      have hmem : (i, a) ∈ (State.construct input sf sa).1.itemsIterList := by
        rw [hl]; exact List.mem_cons_self _ _
      rw [mem_itemsIterList] at hmem
      obtain ⟨⟨hsc1, hsc2⟩, ⟨st, hst, hpres⟩, _⟩ := hmem
      have hrem : ∀ c : Option Nat,
          ({ (State.construct input sf sa).1 with current := c } : State).remove i =
          { (State.construct input sf sa).1 with
              current := some i,
              remaining := (State.construct input sf sa).1.remaining - 1,
              item_state := (State.construct input sf sa).1.item_state.set i
                ItemState.Parsed } := by
        intro c
        unfold State.remove
        rw [if_pos]
        exact ⟨hsc1, hsc2, by rw [hst]; simpa using hpres⟩
      unfold State.take_positional_word at htake
      rw [hl] at htake
      cases a with
      | PosWord wa =>
        simp only [List.head?] at htake
        rw [hrem (some i)] at htake
        injection htake with _ hst'
        rw [← hst']
        simp [hne]
      | Word wa =>
        simp only [List.head?] at htake
        rw [hrem (some i)] at htake
        injection htake with _ hst'
        rw [← hst']
        simp [hne]
      | Short c att os => simp at htake
      | Long n att os => simp at htake

/-- C10 witness: for input `["-v", "--", "-x"]` the marker at index 1 is a
parsed `PosWord "--"`, invisible to `get` and the iterator, with
`remaining` one less than the number of tokens. -/
theorem double_dash_marker_consumed_witness :
    (State.construct ["-v", "--", "-x"] ['v'] []).1.items.get? 1 =
      some (Arg.PosWord "--") ∧
    (State.construct ["-v", "--", "-x"] ['v'] []).1.present 1 = some false ∧
    (State.construct ["-v", "--", "-x"] ['v'] []).1.get 1 = none ∧
    (State.construct ["-v", "--", "-x"] ['v'] []).1.remaining + 1 =
      (State.construct ["-v", "--", "-x"] ['v'] []).1.items.length := by
  have h := double_dash_marker_consumed ["-v", "--", "-x"] ['v'] [] 1 (by decide)
  exact ⟨h.1, h.2.1, h.2.2.1, h.2.2.2.2.1⟩

/-- Setting one entry of a status list moves the count by the entry's and
the new value's contributions. -/
theorem countP_set_entry (p : ItemState → Bool) :
    ∀ (l : List ItemState) (i : Nat) (v st : ItemState), l.get? i = some st →
      (l.set i v).countP p + (if p st then 1 else 0) =
        l.countP p + (if p v then 1 else 0) := by
  intro l
  induction l with
  | nil => intro i v st h; simp at h
  | cons hd tl ih =>
    intro i v st h
    cases i with
    | zero =>
      injection h with h
      subst h
      simp only [List.set, List.countP_cons]
      omega
    | succ j =>
      simp only [List.get?] at h
      simp only [List.set, List.countP_cons]
      have := ih j v st h
      omega

/-- Marking a present in-scope entry as `Parsed` decreases the in-scope
present count by exactly one. -/
theorem presentCountIn_set_parsed (l : List ItemState) (a b ix : Nat)
    (st : ItemState) (hget : l.get? ix = some st) (hpres : st.present = true)
    (ha : a ≤ ix) (hb : ix < b) :
    presentCountIn (l.set ix ItemState.Parsed) (a, b) + 1 =
      presentCountIn l (a, b) := by
  unfold presentCountIn
  dsimp only
  rw [List.drop_set, if_neg (by omega), List.set_take]
  have hslice : ((l.drop a).take (b - a)).get? (ix - a) = some st := by
    rw [List.get?_take (by omega), List.get?_drop]
    have hx : a + (ix - a) = ix := by omega
    rw [hx, hget]
  have h := countP_set_entry (fun st => st.present) ((l.drop a).take (b - a))
    (ix - a) ItemState.Parsed st hslice
  simp only [hpres, if_true] at h
  have h2 : (if ItemState.Parsed.present = true then 1 else 0) = 0 := rfl
  rw [h2] at h
  omega

/-- An all-`Unparsed` status list has every in-range index present. -/
theorem presentCountIn_replicate (n : Nat) :
    presentCountIn (List.replicate n ItemState.Unparsed) (0, n) = n := by
  unfold presentCountIn
  simp only [List.drop_zero, Nat.sub_zero, List.take_replicate, Nat.min_self]
  induction n with
  | zero => rfl
  | succ k ih =>
    rw [List.replicate_succ, List.countP_cons, ih]
    have h2 : (if ItemState.Unparsed.present = true then 1 else 0) = 1 := rfl
    rw [h2]

/-- `set_scope` recomputes `remaining`, so it establishes the invariant
unconditionally. -/
theorem remainingInv_set_scope (s : State) (r : Nat × Nat) :
    RemainingInv (s.set_scope r) := rfl

/-- `remove` preserves the cached-count invariant. -/
theorem remainingInv_remove (s : State) (h : RemainingInv s) (ix : Nat) :
    RemainingInv (s.remove ix) := by
  unfold State.remove
  split
  · rename_i hc
    obtain ⟨h1, h2, h3⟩ := hc
    rcases hst : s.item_state.get? ix with _ | st
    · rw [hst] at h3
      simp at h3
    · rw [hst] at h3
      simp at h3
      unfold RemainingInv at h ⊢
      dsimp only
      have hstep := presentCountIn_set_parsed s.item_state s.scope.1 s.scope.2 ix
        st hst h3 h1 h2
      have hsc : (s.scope.1, s.scope.2) = s.scope := rfl
      rw [hsc] at hstep
      omega
  · exact h

/-- A cursor update does not touch the invariant. -/
theorem remainingInv_current (s : State) (h : RemainingInv s) (c : Option Nat) :
    RemainingInv { s with current := c } := h

/-- Construction establishes the cached-count invariant. -/
theorem remainingInv_construct (input : List String) (sf sa : List Char) :
    RemainingInv (State.construct input sf sa).1 := by
  unfold State.construct RemainingInv
  dsimp only
  rcases hmk : (tokenize sf sa input [] false none).2.1 with _ | ix
  · exact (presentCountIn_replicate _).symm
  · dsimp only
    rcases tokenize_marker_posword sf sa input [] false none ix hmk with h | h
    · exact absurd h (by simp)
    obtain ⟨hgt, hlt⟩ := h
    have hrepl : (List.replicate (tokenize sf sa input [] false none).1.length
        ItemState.Unparsed).get? ix = some ItemState.Unparsed := by
      rw [List.get?_eq_getElem?]
      simp [List.getElem?_replicate, hlt]
    have hstep := presentCountIn_set_parsed
      (List.replicate (tokenize sf sa input [] false none).1.length ItemState.Unparsed)
      0 (tokenize sf sa input [] false none).1.length ix ItemState.Unparsed hrepl
      (by decide) (Nat.zero_le ix) hlt
    have hfull := presentCountIn_replicate
      (tokenize sf sa input [] false none).1.length
    omega

/-- `take_flag` preserves the cached-count invariant. -/
theorem remainingInv_take_flag (s : State) (h : RemainingInv s) (n : NamedArg) :
    RemainingInv (s.take_flag n).2 := by
  unfold State.take_flag
  rcases hf : s.itemsIterList.find? (fun p => n.matches_arg p.2 false) with _ | p
  · rw [hf]
    exact h
  · obtain ⟨ix, a⟩ := p
    rw [hf]
    exact remainingInv_remove s h ix

/-- `take_arg` preserves the cached-count invariant. -/
theorem remainingInv_take_arg (s : State) (h : RemainingInv s) (n : NamedArg)
    (adj : Bool) : RemainingInv (s.take_arg n adj).2 := by
  unfold State.take_arg
  rcases hf : s.itemsIterList.find? (fun p => n.matches_arg p.2 adj) with _ | p
  · rw [hf]
    exact h
  · obtain ⟨kix, a⟩ := p
    rw [hf]
    dsimp only
    rcases hg : s.get (kix + 1) with _ | arg
    · exact h
    · cases arg with
      | Word w =>
        exact remainingInv_remove _ (remainingInv_remove _
          (remainingInv_current s h (some (kix + 1))) kix) (kix + 1)
      | Short c att os => exact h
      | Long nm att os => exact h
      | PosWord os => exact h

/-- `take_positional_word` preserves the cached-count invariant. -/
theorem remainingInv_take_positional_word (s : State) (h : RemainingInv s)
    (mv : String) : RemainingInv (s.take_positional_word mv).2 := by
  unfold State.take_positional_word
  rcases hf : s.itemsIterList.head? with _ | p
  · exact h
  · obtain ⟨ix, a⟩ := p
    cases a with
    | PosWord w =>
      exact remainingInv_remove _ (remainingInv_current s h (some ix)) ix
    | Word w =>
      exact remainingInv_remove _ (remainingInv_current s h (some ix)) ix
    | Short c att os => exact h
    | Long nm att os => exact h

/-- `take_cmd` preserves the cached-count invariant. -/
theorem remainingInv_take_cmd (s : State) (h : RemainingInv s) (w : String) :
    RemainingInv (s.take_cmd w).2 := by
  unfold State.take_cmd
  rcases hf : s.itemsIterList.head? with _ | p
  · exact h
  · obtain ⟨ix, a⟩ := p
    cases a with
    | Word wa =>
      dsimp only
      by_cases hw : wa = w
      · rw [if_pos hw]
        exact remainingInv_current _ (remainingInv_remove s h ix) (some ix)
      · rw [if_neg hw]
        exact h
    | PosWord os => exact h
    | Short c att os => exact h
    | Long nm att os => exact h

/-- C7: in every pool state reachable from construction via the primitive
mutating operations, the cached `remaining` equals the number of indices
strictly inside the active scope whose status is not `Parsed`. -/
theorem remaining_invariant (s : State) (h : Reachable s) : RemainingInv s := by
  induction h with
  | construct input sf sa => exact remainingInv_construct input sf sa
  | remove s ix _ ih => exact remainingInv_remove s ih ix
  | set_scope s r _ _ => exact remainingInv_set_scope s r
  | take_flag s n _ ih => exact remainingInv_take_flag s ih n
  | take_arg s n adj _ ih => exact remainingInv_take_arg s ih n adj
  | take_positional_word s mv _ ih => exact remainingInv_take_positional_word s ih mv
  | take_cmd s w _ ih => exact remainingInv_take_cmd s ih w

/-- `this_or_that_picks_first` when the second branch ended deeper. -/
theorem this_or_that_deeper_b (ea eb : Option info.Error) (args sa sb : State)
    (h : sa.depth < sb.depth) :
    this_or_that_picks_first ea eb args sa sb =
      (match eb with
       | some err => Except.error err
       | none => Except.ok false, sb) := by
  unfold this_or_that_picks_first
  rw [if_pos h]

/-- `this_or_that_picks_first` when the first branch ended deeper. -/
theorem this_or_that_deeper_a (ea eb : Option info.Error) (args sa sb : State)
    (h : sb.depth < sa.depth) :
    this_or_that_picks_first ea eb args sa sb =
      (match ea with
       | some err => Except.error err
       | none => Except.ok true, sa) := by
  unfold this_or_that_picks_first
  rw [if_neg (by omega), if_pos h]

/-- `this_or_that_picks_first` at equal depth. -/
theorem this_or_that_equal (ea eb : Option info.Error) (args sa sb : State)
    (h : sa.depth = sb.depth) :
    this_or_that_picks_first ea eb args sa sb =
      match ea, eb with
      | none, none =>
        if sa.head ≤ sb.head then (Except.ok true, sa) else (Except.ok false, sb)
      | none, some _ => (Except.ok true, sa)
      | some _, none => (Except.ok false, sb)
      | some e1, some e2 => (Except.error (e1.combine_with e2), args) := by
  unfold this_or_that_picks_first
  rw [if_neg (by omega), if_neg (by omega)]

/-- `ParseOrElse_eval` in terms of the two branch runs. -/
theorem or_else_eval_run {T : Type} [Inhabited T] (p q : ParserFn T) (args : State)
    (ra : Except info.Error T) (sa : State) (rb : Except info.Error T) (sb : State)
    (hpa : p.eval { args with head := usizeMax } = (ra, sa))
    (hpb : q.eval { args with head := usizeMax } = (rb, sb)) :
    ParseOrElse_eval p q args =
      match this_or_that_picks_first (errOf ra) (errOf rb) args sa sb with
      | (Except.error e, live) => (Except.error e, live)
      | (Except.ok true, live) =>
        (Except.ok (ra.toOption.get!),
         match rb with
         | Except.ok _ => remember_conflict live p.meta sb q.meta
         | Except.error _ => remember_winner live p.meta)
      | (Except.ok false, live) =>
        (Except.ok (rb.toOption.get!),
         match ra with
         | Except.ok _ => remember_conflict live q.meta sa p.meta
         | Except.error _ => remember_winner live q.meta) := by
  unfold ParseOrElse_eval
  simp only [hpa, hpb]
  rcases hto : this_or_that_picks_first (errOf ra) (errOf rb) args sa sb with ⟨e | b, live⟩
  · rfl
  · cases b
    · cases ra <;> rfl
    · cases rb <;> rfl

/-- The bookkeeping helpers only touch the conflict map. -/
theorem remember_winner_sans (s : State) (m : Meta) :
    (remember_winner s m).sans_conflicts = s.sans_conflicts := rfl

/-- The bookkeeping helpers only touch the conflict map. -/
theorem remember_conflict_sans (s : State) (w : Meta) (f : State) (l : Meta) :
    (remember_conflict s w f l).sans_conflicts = s.sans_conflicts := rfl

/-- C2: in `or_else`, each branch runs on its own clone of the pool; a
branch that ended at a greater nesting depth wins outright, its error (if
any) becoming the result and its clone the live pool; at equal depth a
failing branch loses to a succeeding one; if both succeed, the branch with
the smaller first-consumed index wins and its clone becomes the live pool
(up to conflict bookkeeping); if both fail, the result is the combination
of the two failures. -/
theorem or_else_resolution {T : Type} [Inhabited T] (p q : ParserFn T)
    (args : State) (ra : Except info.Error T) (sa : State)
    (rb : Except info.Error T) (sb : State)
    (hpa : p.eval { args with head := usizeMax } = (ra, sa))
    (hpb : q.eval { args with head := usizeMax } = (rb, sb)) :
    (sa.depth < sb.depth →
      (∀ e, rb = Except.error e → ParseOrElse_eval p q args = (Except.error e, sb)) ∧
      (∀ v, rb = Except.ok v → (ParseOrElse_eval p q args).1 = Except.ok v ∧
        (ParseOrElse_eval p q args).2.sans_conflicts = sb.sans_conflicts)) ∧
    (sb.depth < sa.depth →
      (∀ e, ra = Except.error e → ParseOrElse_eval p q args = (Except.error e, sa)) ∧
      (∀ v, ra = Except.ok v → (ParseOrElse_eval p q args).1 = Except.ok v ∧
        (ParseOrElse_eval p q args).2.sans_conflicts = sa.sans_conflicts)) ∧
    (sa.depth = sb.depth →
      (∀ va e, ra = Except.ok va → rb = Except.error e →
        (ParseOrElse_eval p q args).1 = Except.ok va ∧
        (ParseOrElse_eval p q args).2.sans_conflicts = sa.sans_conflicts) ∧
      (∀ vb e, ra = Except.error e → rb = Except.ok vb →
        (ParseOrElse_eval p q args).1 = Except.ok vb ∧
        (ParseOrElse_eval p q args).2.sans_conflicts = sb.sans_conflicts) ∧
      (∀ va vb, ra = Except.ok va → rb = Except.ok vb →
        (sa.head < sb.head →
          (ParseOrElse_eval p q args).1 = Except.ok va ∧
          (ParseOrElse_eval p q args).2.sans_conflicts = sa.sans_conflicts) ∧
        (sb.head < sa.head →
          (ParseOrElse_eval p q args).1 = Except.ok vb ∧
          (ParseOrElse_eval p q args).2.sans_conflicts = sb.sans_conflicts)) ∧
      (∀ ea eb, ra = Except.error ea → rb = Except.error eb →
        ParseOrElse_eval p q args = (Except.error (ea.combine_with eb), args))) := by
  have hrun := or_else_eval_run p q args ra sa rb sb hpa hpb
  refine ⟨?_, ?_, ?_⟩
  · intro hd
    constructor
    · rintro e rfl
      rw [hrun, this_or_that_deeper_b _ _ _ _ _ hd]
      rfl
    · rintro v rfl
      rw [hrun, this_or_that_deeper_b _ _ _ _ _ hd]
      cases ra with
      | ok a => exact ⟨rfl, remember_conflict_sans _ _ _ _⟩
      | error e => exact ⟨rfl, remember_winner_sans _ _⟩
  · intro hd
    constructor
    · rintro e rfl
      rw [hrun, this_or_that_deeper_a _ _ _ _ _ hd]
      rfl
    · rintro v rfl
      rw [hrun, this_or_that_deeper_a _ _ _ _ _ hd]
      cases rb with
      | ok a => exact ⟨rfl, remember_conflict_sans _ _ _ _⟩
      | error e => exact ⟨rfl, remember_winner_sans _ _⟩
  · intro hd
    refine ⟨?_, ?_, ?_, ?_⟩
    · rintro va e rfl rfl
      rw [hrun, this_or_that_equal _ _ _ _ _ hd]
      exact ⟨rfl, remember_winner_sans _ _⟩
    · rintro vb e rfl rfl
      rw [hrun, this_or_that_equal _ _ _ _ _ hd]
      exact ⟨rfl, remember_winner_sans _ _⟩
    · rintro va vb rfl rfl
      constructor
      · intro hh
        rw [hrun, this_or_that_equal _ _ _ _ _ hd]
        dsimp only [errOf]
        rw [if_pos (Nat.le_of_lt hh)]
        exact ⟨rfl, remember_conflict_sans _ _ _ _⟩
      · intro hh
        rw [hrun, this_or_that_equal _ _ _ _ _ hd]
        dsimp only [errOf]
        rw [if_neg (by omega)]
        exact ⟨rfl, remember_conflict_sans _ _ _ _⟩
    · rintro ea eb rfl rfl
      rw [hrun, this_or_that_equal _ _ _ _ _ hd]
      rfl

/-- C2 witness: both branches succeed at equal depth; the branch with the
smaller first-consumed index (5 < 7) wins. -/
theorem or_else_resolution_witness :
    (ParseOrElse_eval (constParser 1 5) (constParser 2 7) emptyState).1 =
      Except.ok 1 := by
  have h := (or_else_resolution (constParser 1 5) (constParser 2 7) emptyState
    (Except.ok 1) { emptyState with head := 5 }
    (Except.ok 2) { emptyState with head := 7 } rfl rfl).2.2 rfl
  exact ((h.2.2.1 1 2 rfl rfl).1 (by decide)).1

/-- C3 counterexample: (a) with branches at different ending depths, the
only alternative that can succeed does not determine the result — `or_else`
of a succeeding parser and a deeper-failing parser reports the deeper
branch's error; (b) with both branches succeeding at equal depth and equal
first-consumed index, swapping the declaration order changes which branch
wins (first-declared wins each time). -/
theorem or_else_determinism_cex :
    ((ParseOrElse_eval (constParser 1 0) deepMissing emptyState).1 =
        Except.error (info.Error.Missing []) ∧
      ((constParser 1 0).eval { emptyState with head := usizeMax }).1 =
        Except.ok 1 ∧
      (deepMissing.eval { emptyState with head := usizeMax }).1 =
        Except.error (info.Error.Missing [])) ∧
    ((ParseOrElse_eval (constParser 1 0) (constParser 2 0) emptyState).1 =
        Except.ok 1 ∧
      (ParseOrElse_eval (constParser 2 0) (constParser 1 0) emptyState).1 =
        Except.ok 2) := by
  refine ⟨⟨?_, rfl, rfl⟩, ?_, ?_⟩ <;> rfl

/-- C3 amended: for all inputs on which exactly one of the two alternatives
can succeed *and the two branch runs end at equal nesting depth*, the result
is that alternative's result regardless of declaration order; for inputs on
which both succeed at equal depth, swapping the declaration order never
changes which one wins *provided the two first-consumed indices are
distinct* (leftmost wins); with equal first-consumed indices the
first-declared branch wins. -/
theorem or_else_determinism_amended {T : Type} [Inhabited T] (p q : ParserFn T)
    (args : State) (ra rb : Except info.Error T) (sa sb : State)
    (hpa : p.eval { args with head := usizeMax } = (ra, sa))
    (hpb : q.eval { args with head := usizeMax } = (rb, sb))
    (hdepth : sa.depth = sb.depth) :
    (∀ va e, ra = Except.ok va → rb = Except.error e →
      (ParseOrElse_eval p q args).1 = Except.ok va ∧
      (ParseOrElse_eval q p args).1 = Except.ok va) ∧
    (∀ vb e, ra = Except.error e → rb = Except.ok vb →
      (ParseOrElse_eval p q args).1 = Except.ok vb ∧
      (ParseOrElse_eval q p args).1 = Except.ok vb) ∧
    (∀ va vb, ra = Except.ok va → rb = Except.ok vb →
      (sa.head < sb.head →
        (ParseOrElse_eval p q args).1 = Except.ok va ∧
        (ParseOrElse_eval q p args).1 = Except.ok va) ∧
      (sb.head < sa.head →
        (ParseOrElse_eval p q args).1 = Except.ok vb ∧
        (ParseOrElse_eval q p args).1 = Except.ok vb) ∧
      (sa.head = sb.head →
        (ParseOrElse_eval p q args).1 = Except.ok va ∧
        (ParseOrElse_eval q p args).1 = Except.ok vb)) := by
  have hrun1 := or_else_eval_run p q args ra sa rb sb hpa hpb
  have hrun2 := or_else_eval_run q p args rb sb ra sa hpb hpa
  refine ⟨?_, ?_, ?_⟩
  · rintro va e rfl rfl
    constructor
    · rw [hrun1, this_or_that_equal _ _ _ _ _ hdepth]
      rfl
    · rw [hrun2, this_or_that_equal _ _ _ _ _ hdepth.symm]
      rfl
  · rintro vb e rfl rfl
    constructor
    · rw [hrun1, this_or_that_equal _ _ _ _ _ hdepth]
      rfl
    · rw [hrun2, this_or_that_equal _ _ _ _ _ hdepth.symm]
      rfl
  · rintro va vb rfl rfl
    refine ⟨?_, ?_, ?_⟩
    · intro hh
      constructor
      · rw [hrun1, this_or_that_equal _ _ _ _ _ hdepth]
        dsimp only [errOf]
        rw [if_pos (Nat.le_of_lt hh)]
        rfl
      · rw [hrun2, this_or_that_equal _ _ _ _ _ hdepth.symm]
        dsimp only [errOf]
        rw [if_neg (by omega)]
        rfl
    · intro hh
      constructor
      · rw [hrun1, this_or_that_equal _ _ _ _ _ hdepth]
        dsimp only [errOf]
        rw [if_neg (by omega)]
        rfl
      · rw [hrun2, this_or_that_equal _ _ _ _ _ hdepth.symm]
        dsimp only [errOf]
        rw [if_pos (Nat.le_of_lt hh)]
        rfl
    · intro hh
      constructor
      · rw [hrun1, this_or_that_equal _ _ _ _ _ hdepth]
        dsimp only [errOf]
        rw [if_pos (Nat.le_of_eq hh)]
        rfl
      · rw [hrun2, this_or_that_equal _ _ _ _ _ hdepth.symm]
        dsimp only [errOf]
        rw [if_pos (Nat.le_of_eq hh.symm)]
        rfl

/-- C3 witness: both branches succeed at equal depth with distinct
first-consumed indices 5 and 7 — the branch that consumed at 5 wins in both
declaration orders. -/
theorem or_else_determinism_amended_witness :
    (ParseOrElse_eval (constParser 3 5) (constParser 4 7) emptyState).1 =
      Except.ok 3 ∧
    (ParseOrElse_eval (constParser 4 7) (constParser 3 5) emptyState).1 =
      Except.ok 3 := by
  have h := (or_else_determinism_amended (constParser 3 5) (constParser 4 7)
    emptyState (Except.ok 3) (Except.ok 4) { emptyState with head := 5 }
    { emptyState with head := 7 } rfl rfl rfl).2.2 3 4 rfl rfl
  exact h.1 (by decide)

/-- C4 counterexample: with catch disabled, `parse_option` (the engine of
`optional` and `many`) does not swallow (a) a `Missing` failure whose
attempt consumed a token, nor (b) a recoverable `Message` failure — both
propagate as errors instead of yielding `Ok None`. -/
theorem optional_swallow_cex :
    (parse_option consumeMissing (State.construct ["w"] [] []).1 false).1 =
      Except.error (info.Error.Missing []) ∧
    (parse_option (failParser (info.Error.Message "m" true))
        (State.construct ["w"] [] []).1 false).1 =
      Except.error (info.Error.Message "m" true) := by
  exact ⟨rfl, rfl⟩

/-- C4 amended: `fallback` and `fallback_with` swallow `Missing` and
recoverable `Message` failures (substituting the fallback value, or the
fallback function's result whose own error becomes an unrecoverable
`Message`); `optional` and `many` (catch disabled) swallow a `Missing`
failure only when the attempt consumed nothing, propagating it otherwise,
and propagate every `Message` failure; on every swallow the pool is exactly
the pre-attempt pool; unrecoverable `Message` failures and parse-failure
terminations are propagated unchanged by all of them. -/
theorem optional_fallback_swallow_amended {T : Type} (inner : ParserFn T)
    (args s' : State) (v : T) (f : Unit → Except String T) :
    (∀ xs, inner.eval args = (Except.error (info.Error.Missing xs), s') →
      (args.len = s'.len →
        parse_option inner args false = (Except.ok none, args) ∧
        ParseOptional_eval inner false args = (Except.ok none, args)) ∧
      (args.len ≠ s'.len →
        parse_option inner args false =
          (Except.error (info.Error.Missing xs), args)) ∧
      ParseFallback_eval inner v args = (Except.ok v, args) ∧
      ParseFallbackWith_eval inner f args =
        (match f () with
         | Except.ok w => Except.ok w
         | Except.error msg => Except.error (info.Error.Message msg false), args)) ∧
    (∀ t r, inner.eval args = (Except.error (info.Error.Message t r), s') →
      parse_option inner args false =
        (Except.error (info.Error.Message t r), args)) ∧
    (∀ t, inner.eval args = (Except.error (info.Error.Message t true), s') →
      ParseFallback_eval inner v args = (Except.ok v, args) ∧
      ParseFallbackWith_eval inner f args =
        (match f () with
         | Except.ok w => Except.ok w
         | Except.error msg => Except.error (info.Error.Message msg false), args)) ∧
    (∀ t, inner.eval args = (Except.error (info.Error.Message t false), s') →
      ParseFallback_eval inner v args =
        (Except.error (info.Error.Message t false), args) ∧
      ParseFallbackWith_eval inner f args =
        (Except.error (info.Error.Message t false), args)) ∧
    (∀ pf, inner.eval args = (Except.error (info.Error.ParseFailure pf), s') →
      parse_option inner args false =
        (Except.error (info.Error.ParseFailure pf), args) ∧
      ParseFallback_eval inner v args =
        (Except.error (info.Error.ParseFailure pf), args) ∧
      ParseFallbackWith_eval inner f args =
        (Except.error (info.Error.ParseFailure pf), args)) ∧
    (∀ e s'', parse_option inner args false = (Except.error e, s'') →
      ParseMany_eval inner false args = (Except.error e, s'')) := by
  refine ⟨?_, ?_, ?_, ?_, ?_, ?_⟩
  · intro xs hrun
    refine ⟨?_, ?_, ?_, ?_⟩
    · intro hlen
      have h : parse_option inner args false = (Except.ok none, args) := by
        unfold parse_option
        rw [hrun]
        dsimp only
        rw [if_pos hlen]
      exact ⟨h, h⟩
    · intro hlen
      unfold parse_option
      rw [hrun]
      dsimp only
      rw [if_neg hlen]
    · unfold ParseFallback_eval
      rw [hrun]
    · unfold ParseFallbackWith_eval
      rw [hrun]
  · intro t r hrun
    unfold parse_option
    rw [hrun]
    dsimp only
    rfl
  · intro t hrun
    constructor
    · unfold ParseFallback_eval
      rw [hrun]
    · unfold ParseFallbackWith_eval
      rw [hrun]
  · intro t hrun
    constructor
    · unfold ParseFallback_eval
      rw [hrun]
    · unfold ParseFallbackWith_eval
      rw [hrun]
  · intro pf hrun
    refine ⟨?_, ?_, ?_⟩
    · unfold parse_option
      rw [hrun]
    · unfold ParseFallback_eval
      rw [hrun]
    · unfold ParseFallbackWith_eval
      rw [hrun]
  · intro e s'' hpo
    unfold ParseMany_eval ParseMany_go
    rw [hpo]

/-- C4 witness: `fallback` swallows a recoverable `Message`, returning the
fallback value with the untouched pool. -/
theorem optional_fallback_swallow_amended_witness :
    ParseFallback_eval (failParser (info.Error.Message "m" true)) 7
      (State.construct ["w"] [] []).1 =
      (Except.ok 7, (State.construct ["w"] [] []).1) := by
  exact (optional_fallback_swallow_amended
    (failParser (info.Error.Message "m" true)) (State.construct ["w"] [] []).1
    (State.construct ["w"] [] []).1 7 (fun _ => Except.ok 7)).2.2.1 "m" rfl |>.1

/-- Mapping first components out of an if-guarded `filterMap` is a filter. -/
theorem map_fst_filterMap_if {α β : Type} (l : List α) (p : α → Bool) (g : α → β) :
    (l.filterMap (fun x => if p x then some (x, g x) else none)).map Prod.fst =
      l.filter p := by
  induction l with
  | nil => rfl
  | cons hd tl ih =>
    by_cases hp : p hd
    · simp only [List.filterMap_cons, List.filter_cons, hp, if_true, ite_true,
        List.map_cons, ih]
    · simp only [List.filterMap_cons, List.filter_cons, hp, Bool.false_eq_true,
        if_false, ite_false, ih]

/-- The candidate start positions of `ranges` are listed in increasing
order: the scan is left to right. -/
theorem rangesList_sorted (s : State) :
    List.Pairwise (fun a b => a < b) ((s.rangesList).map Prod.fst) := by
  unfold State.rangesList
  rw [map_fst_filterMap_if]
  exact List.Pairwise.sublist (List.filter_sublist _) (List.pairwise_lt_range _)

/-- C5 counterexample: (a) on the pool built from `["w", "-f"]` with a
required-flag parser, the real (from-candidate-to-end) run at candidate 0
succeeds, yet the scan commits candidate 1 (the committed pool's scope
starts at 1, where a candidate-0 commit would have scope `(0, 2)`) — the
one-token probe skipped candidate 0; (b) after an exhausted scan the
returned failure is the aggregated `Missing`, not the error of the final
empty-pool evaluation. -/
theorem anywhere_scan_cex :
    ((reqFlag 'f').eval ((State.construct ["w", "-f"] ['f'] []).1.set_scope
        (0, (State.construct ["w", "-f"] ['f'] []).1.items.length))).1 =
      Except.ok 0 ∧
    (ParseAnywhere_eval (reqFlag 'f') false
        (State.construct ["w", "-f"] ['f'] []).1).2.scope = (1, 2) ∧
    (ParseAnywhere_eval (failParser (info.Error.Message "m" true)) false
        (State.construct ["w"] [] []).1).1 =
      Except.error (info.Error.Missing []) ∧
    ((failParser (info.Error.Message "m" true)).eval emptyState).1 =
      Except.error (info.Error.Message "m" true) := by
  exact ⟨rfl, rfl, rfl, rfl⟩

/-- C5 amended: `anywhere` scans candidate start positions left to right;
each candidate is first probed on a one-token scope and skipped when the
probe consumes nothing; when the scan reaches a candidate whose probe
consumed and whose real (from-candidate-to-end) run succeeds or signals a
help/version termination, that candidate is committed immediately and the
scan stops (so among candidates reached, the leftmost such wins); if the
scan exhausts all candidates, the inner parser is evaluated once more
against an empty pool — its success is returned as the result, and otherwise
a `Missing` error carrying the best-progress missing items recorded during
the scan is returned (not that final evaluation's own failure). -/
theorem anywhere_scan_amended {T : Type} (inner : ParserFn T) (catchFlag : Bool)
    (args : State) :
    ParseAnywhere_eval inner catchFlag args =
      ParseAnywhere_go inner catchFlag args args.rangesList
        (meta_items (classify_anywhere inner.meta)) 0 ∧
    List.Pairwise (fun a b => a < b) ((args.rangesList).map Prod.fst) ∧
    (∀ start ta rest bm bc,
      (ta.restrict_to_range (start, start + 1)).len ≠ 0 →
      (inner.eval (ta.restrict_to_range (start, start + 1))).2.len =
        (ta.restrict_to_range (start, start + 1)).len →
      ParseAnywhere_go inner catchFlag args ((start, ta) :: rest) bm bc =
        ParseAnywhere_go inner catchFlag args rest bm bc) ∧
    (∀ start ta rest bm bc v this',
      (ta.restrict_to_range (start, start + 1)).len ≠ 0 →
      (inner.eval (ta.restrict_to_range (start, start + 1))).2.len ≠
        (ta.restrict_to_range (start, start + 1)).len →
      inner.eval ta = (Except.ok v, this') →
      ParseAnywhere_go inner catchFlag args ((start, ta) :: rest) bm bc =
        (Except.ok v, this'.copy_usage_from args (0, start))) ∧
    (∀ start ta rest bm bc pf this',
      (ta.restrict_to_range (start, start + 1)).len ≠ 0 →
      (inner.eval (ta.restrict_to_range (start, start + 1))).2.len ≠
        (ta.restrict_to_range (start, start + 1)).len →
      inner.eval ta = (Except.error (info.Error.ParseFailure pf), this') →
      ParseAnywhere_go inner catchFlag args ((start, ta) :: rest) bm bc =
        (Except.error (info.Error.ParseFailure pf),
         this'.copy_usage_from args (0, start))) ∧
    (∀ bm bc v s'', inner.eval emptyState = (Except.ok v, s'') →
      ParseAnywhere_go inner catchFlag args [] bm bc = (Except.ok v, args)) ∧
    (∀ bm bc e s'', inner.eval emptyState = (Except.error e, s'') →
      ParseAnywhere_go inner catchFlag args [] bm bc =
        (Except.error (info.Error.Missing bm), args)) := by
  refine ⟨rfl, rangesList_sorted args, ?_, ?_, ?_, ?_, ?_⟩
  · intro start ta rest bm bc hlen hprobe
    rw [ParseAnywhere_go]
    dsimp only
    rw [if_neg hlen, if_pos hprobe.symm]
  · intro start ta rest bm bc v this' hlen hprobe hrun
    rw [ParseAnywhere_go]
    dsimp only
    rw [if_neg hlen, if_neg (fun h => hprobe h.symm), hrun]
  · intro start ta rest bm bc pf this' hlen hprobe hrun
    rw [ParseAnywhere_go]
    dsimp only
    rw [if_neg hlen, if_neg (fun h => hprobe h.symm), hrun]
  · intro bm bc v s'' hrun
    unfold ParseAnywhere_go ParseAnywhere_finalize
    rw [hrun]
  · intro bm bc e s'' hrun
    unfold ParseAnywhere_go ParseAnywhere_finalize
    rw [hrun]

/-- C5 witness: with an always-failing inner parser the exhausted scan
reports the recorded missing items, not the empty-pool run's `Message`. -/
theorem anywhere_scan_amended_witness :
    ParseAnywhere_go (failParser (info.Error.Message "m" true)) false emptyState
      [] [] 0 = (Except.error (info.Error.Missing []), emptyState) := by
  exact (anywhere_scan_amended (failParser (info.Error.Message "m" true)) false
    emptyState).2.2.2.2.2.2 [] 0 (info.Error.Message "m" true) emptyState rfl

/-- C7 witness: the invariant holds in the concrete state reached by
constructing from `["-v", "w"]` and removing index 0. -/
theorem remaining_invariant_witness :
    RemainingInv ((State.construct ["-v", "w"] ['v'] []).1.remove 0) :=
  remaining_invariant _
    (Reachable.remove _ 0 (Reachable.construct ["-v", "w"] ['v'] []))

/-- C9 witness: two equal-length status lists differing first at index 1,
where the receiver parsed, give `(true, some 1)`. -/
theorem pick_winner_spec_witness :
    (({ items := [], item_state := [ItemState.Unparsed, ItemState.Parsed], remaining := 0,
        current := none, path := [], scope := (0, 0), head := 0, conflicts := [] } :
      State).pick_winner
      { items := [], item_state := [ItemState.Unparsed, ItemState.Unparsed], remaining := 0,
        current := none, path := [], scope := (0, 0), head := 0, conflicts := [] }) =
      (true, some 1) := by
  have h := (pick_winner_spec
    { items := [], item_state := [ItemState.Unparsed, ItemState.Parsed], remaining := 0,
      current := none, path := [], scope := (0, 0), head := 0, conflicts := [] }
    { items := [], item_state := [ItemState.Unparsed, ItemState.Unparsed], remaining := 0,
      current := none, path := [], scope := (0, 0), head := 0, conflicts := [] }
    rfl).2 1 ItemState.Parsed ItemState.Unparsed rfl rfl (by decide)
  have h2 := h (fun j sa' sb' hj ha hb => by
    interval_cases j
    · injection ha with ha
      injection hb with hb
      rw [← ha, ← hb])
  simpa using h2

end Bpaf
